import Mathlib

/-!
# Verification of the reactive-state core (proxy layer, async component loader,
# keep-alive cache)

Shallow embedding of the repository sources:
* `reactive.ts` (proxy layer): `createReactiveObject`, the four public
  constructors, `isReactive` / `isReadonly` / `isShallow` / `isProxy` /
  `toRaw` / `markRaw`.
* `apiAsyncComponent.ts`: the `load` closure and the setup-time
  loaded/error/delayed state machine with its render-priority function.
* `KeepAlive.ts`: the LRU cache of rendered subtrees (`cache` map plus
  insertion-ordered `keys` set), `pruneCacheEntry`, `pruneCache`,
  the render closure and the mounted/updated `cacheSubtree` hook.

JavaScript objects are modelled by an explicit heap: a list of object records
indexed by object id.  A proxy is an object record carrying a
`proxyOf : Option (Nat × Kind)` back-reference to its target.  WeakMap
identity caches are association lists from target id to proxy id.
-/

namespace Vue

/-- JS `Object.prototype.toString` classification (`toRawType` in
`@vue/shared`), restricted to the cases `targetTypeMap` distinguishes.
`otherR` stands for every other raw type of a `typeof 'object'` value
(Date, RegExp, class instances with custom toStringTags, ...).  Functions
are not `typeof 'object'`: `isObject` rejects them before any
classification, so they are modelled as the non-object value `Value.vFun`
and never reach `targetTypeMap`. -/
inductive RawType where
  | objectR
  | arrayR
  | mapR
  | setR
  | weakMapR
  | weakSetR
  | otherR
deriving DecidableEq

/-- The four proxy kinds of the proxy layer: depth (deep vs shallow) crossed
with mutability (mutable vs readonly). -/
inductive Kind where
  | reactiveKind
  | shallowReactiveKind
  | readonlyKind
  | shallowReadonlyKind
deriving DecidableEq

/-- Whether the kind is a readonly kind (the `isReadonly` argument of
`createReactiveObject` at its four call sites). -/
def Kind.isRO : Kind → Bool
  | .readonlyKind => true
  | .shallowReadonlyKind => true
  | _ => false

/-- Whether the kind is a shallow kind. -/
def Kind.shallow : Kind → Bool
  | .shallowReactiveKind => true
  | .shallowReadonlyKind => true
  | _ => false

/-- One JS object record: its raw type, the `__v_skip` own property
(set by `markRaw`), extensibility, and, when the object is a Proxy created by
`createReactiveObject`, the target id and proxy kind. -/
structure ObjData where
  rtype : RawType
  skip : Bool
  extensible : Bool
  proxyOf : Option (Nat × Kind)
deriving DecidableEq

/-- A JS value: primitives, a function (identified by an id; functions are
`typeof 'function'`, so `isObject` treats them like primitives), or a
reference into the object heap. -/
inductive Value where
  | vNull
  | vUndefined
  | vBool (b : Bool)
  | vNum (n : Int)
  | vStr (s : String)
  | vFun (id : Nat)
  | vObj (id : Nat)
deriving DecidableEq

/-- The process-wide state the proxy layer mutates: the object heap, the four
per-kind identity WeakMaps (`reactiveMap`, `shallowReactiveMap`,
`readonlyMap`, `shallowReadonlyMap` -- association lists target id → proxy
id), and a counter of emitted dev warnings. -/
structure Heap where
  objs : List ObjData
  reactiveMap : List (Nat × Nat)
  shallowReactiveMap : List (Nat × Nat)
  readonlyMap : List (Nat × Nat)
  shallowReadonlyMap : List (Nat × Nat)
  warnings : Nat
deriving DecidableEq

def Heap.obj? (h : Heap) (id : Nat) : Option ObjData := h.objs.get? id

/-- The identity map belonging to a proxy kind (the `proxyMap` argument of
`createReactiveObject` at each call site). -/
def Heap.mapFor (h : Heap) : Kind → List (Nat × Nat)
  | .reactiveKind => h.reactiveMap
  | .shallowReactiveKind => h.shallowReactiveMap
  | .readonlyKind => h.readonlyMap
  | .shallowReadonlyKind => h.shallowReadonlyMap

/-- Replace the identity map of a kind. -/
def Heap.setMap (h : Heap) : Kind → List (Nat × Nat) → Heap
  | .reactiveKind, m => { h with reactiveMap := m }
  | .shallowReactiveKind, m => { h with shallowReactiveMap := m }
  | .readonlyKind, m => { h with readonlyMap := m }
  | .shallowReadonlyKind, m => { h with shallowReadonlyMap := m }

/-- WeakMap.get on an identity map. -/
def mapLookup : List (Nat × Nat) → Nat → Option Nat
  | [], _ => none
  | (t, p) :: rest, id => if t = id then some p else mapLookup rest id

/-- The `__v_raw` back-reference of an object: the target id when the object
is a proxy, nothing otherwise. -/
def rawRefId (h : Heap) (id : Nat) : Option Nat :=
  ((h.obj? id).bind (fun o => o.proxyOf)).map Prod.fst

/-- Follow the proxy back-reference chain down to the underlying raw object.
Proxies always point to previously-created objects, so `fuel = h.objs.length`
suffices on heaps built by the operations of this file. -/
def rootIdF (h : Heap) : Nat → Nat → Nat
  | 0, id => id
  | fuel + 1, id =>
    match rawRefId h id with
    | some t => rootIdF h fuel t
    | none => id

def rootId (h : Heap) (id : Nat) : Nat := rootIdF h h.objs.length id

/-- JS truthiness. -/
def truthy : Value → Bool
  | .vNull => false
  | .vUndefined => false
  | .vBool b => b
  | .vNum n => n != 0
  | .vStr s => s != ""
  | .vFun _ => true
  | .vObj _ => true

/-- The five `ReactiveFlags` property keys. -/
inductive Flag where
  | skipF
  | isReactiveF
  | isReadonlyF
  | isShallowF
  | rawF
deriving DecidableEq

/-- Modelled from the spec: the proxy get-trap behaviour for the hidden
`ReactiveFlags` keys.  The handler sets (`baseHandlers` /
`collectionHandlers`) are not among the sources; per the spec a wrapped
target "carries four hidden boolean/identity flags once wrapped:
`isReactive`, `isReadonly`, `isShallow`, and a back-reference `raw`", i.e. a
proxy of a given kind answers `isReactive` with the kind's mutability,
`isReadonly` with its readonly-ness, `isShallow` with its depth, and `raw`
with its target; every other read (here: `__v_skip`) is forwarded to the
underlying raw object.  A raw object has none of the flags except a possible
`__v_skip` own property set by `markRaw`. -/
def readFlagObj (h : Heap) (id : Nat) (f : Flag) : Value :=
  match f with
  | .skipF =>
    match h.obj? (rootId h id) with
    | some o => if o.skip then Value.vBool true else Value.vUndefined
    | none => Value.vUndefined
  | _ =>
    match (h.obj? id).bind (fun o => o.proxyOf) with
    | some (t, k) =>
      match f with
      | .rawF => Value.vObj t
      | .isReactiveF => Value.vBool (!k.isRO)
      | .isReadonlyF => Value.vBool k.isRO
      | .isShallowF => Value.vBool k.shallow
      | .skipF => Value.vUndefined
    | none => Value.vUndefined

/-- A JS property read `v[flag]`.  Reading a property of `null` or
`undefined` throws a TypeError, modelled as `Except.error`; reading a flag
off any other primitive, or off a function, yields `undefined`. -/
def propRead (h : Heap) (v : Value) (f : Flag) : Except Unit Value :=
  match v with
  | .vNull => Except.error ()
  | .vUndefined => Except.error ()
  | .vObj id => Except.ok (readFlagObj h id f)
  | _ => Except.ok Value.vUndefined

/-- `isReadonly(value)`: `!!(value && value[ReactiveFlags.IS_READONLY])`.
The `value &&` short-circuit means the property is never read off a nullish
value, hence no error. -/
def isReadonly (h : Heap) (v : Value) : Except Unit Bool :=
  if truthy v then (propRead h v Flag.isReadonlyF).map truthy
  else Except.ok false

/-- The boolean outcome of `isReadonly` (it never throws). -/
def isReadonlyB (h : Heap) (v : Value) : Bool :=
  match isReadonly h v with
  | Except.ok b => b
  | Except.error _ => false

/-- `isShallow(value)`: `!!(value && value[ReactiveFlags.IS_SHALLOW])`. -/
def isShallow (h : Heap) (v : Value) : Except Unit Bool :=
  if truthy v then (propRead h v Flag.isShallowF).map truthy
  else Except.ok false

/-- `isReactive(value)`: if the value is readonly, recurse on its
`__v_raw`; otherwise `!!(value && value[ReactiveFlags.IS_REACTIVE])`.
The recursion follows the raw chain, which strictly descends to
earlier-created objects, so `h.objs.length + 1` fuel suffices. -/
def isReactiveF (h : Heap) : Nat → Value → Except Unit Bool
  | 0, _ => Except.ok false
  | fuel + 1, v =>
    if isReadonlyB h v then
      match propRead h v Flag.rawF with
      | Except.ok raw => isReactiveF h fuel raw
      | Except.error e => Except.error e
    else if truthy v then (propRead h v Flag.isReactiveF).map truthy
    else Except.ok false

def isReactive (h : Heap) (v : Value) : Except Unit Bool :=
  isReactiveF h (h.objs.length + 1) v

/-- `isProxy(value)`: `isReactive(value) || isReadonly(value)`. -/
def isProxy (h : Heap) (v : Value) : Except Unit Bool :=
  match isReactive h v with
  | Except.ok true => Except.ok true
  | Except.ok false => isReadonly h v
  | Except.error e => Except.error e

/-- `toRaw(observed)`: `const raw = observed && observed[ReactiveFlags.RAW];
return raw ? toRaw(raw) : observed`.  The `observed &&` guard makes the read
safe on nullish input.  Raw targets are never proxies, so the chain strictly
descends and `h.objs.length + 1` fuel suffices. -/
def toRawF (h : Heap) : Nat → Value → Value
  | 0, v => v
  | fuel + 1, v =>
    if truthy v then
      match propRead h v Flag.rawF with
      | Except.ok raw => if truthy raw then toRawF h fuel raw else v
      | Except.error _ => v
    else v

def toRaw (h : Heap) (v : Value) : Value :=
  toRawF h (h.objs.length + 1) v

/-- `markRaw(value)`: `def(value, ReactiveFlags.SKIP, true)`, returning the
same identity.  (The source types the argument as `object`.) -/
def markRaw (h : Heap) (v : Value) : Value × Heap :=
  match v with
  | .vObj id =>
    match h.obj? id with
    | some o => (v, { h with objs := h.objs.set id { o with skip := true } })
    | none => (v, h)
  | _ => (v, h)

/-- The three target classes of `targetTypeMap`. -/
inductive TargetType where
  | invalid
  | common
  | collection
deriving DecidableEq

/-- `targetTypeMap(rawType)`. -/
def targetTypeMap : RawType → TargetType
  | .objectR => TargetType.common
  | .arrayR => TargetType.common
  | .mapR => TargetType.collection
  | .setR => TargetType.collection
  | .weakMapR => TargetType.collection
  | .weakSetR => TargetType.collection
  | .otherR => TargetType.invalid

/-- `value[ReactiveFlags.SKIP]` as read by `getTargetType` (forwarded through
proxies to the raw object). -/
def skipVal (h : Heap) (id : Nat) : Bool :=
  match h.obj? (rootId h id) with
  | some o => o.skip
  | none => false

/-- `Object.isExtensible(value)` (a proxy reflects its target). -/
def extensibleVal (h : Heap) (id : Nat) : Bool :=
  match h.obj? (rootId h id) with
  | some o => o.extensible
  | none => false

/-- `toRawType(value)` (a proxy forwards the toStringTag of its target). -/
def toRawTypeVal (h : Heap) (id : Nat) : RawType :=
  match h.obj? (rootId h id) with
  | some o => o.rtype
  | none => RawType.otherR

/-- `getTargetType(value)`: skip-flagged or non-extensible targets are
INVALID, otherwise classify by raw type. -/
def getTargetType (h : Heap) (id : Nat) : TargetType :=
  if skipVal h id || !extensibleVal h id then TargetType.invalid
  else targetTypeMap (toRawTypeVal h id)

/-- `isObject(val)` from `@vue/shared`:
`val !== null && typeof val === 'object'`. -/
def isObjectV : Value → Bool
  | .vObj _ => true
  | _ => false

/-- `createReactiveObject(target, isReadonly, baseHandlers,
collectionHandlers, proxyMap)`.  The kind argument packages the `isReadonly`
flag, the handler sets (whose flag behaviour `readFlagObj` models) and the
identity map of the call site.  `dev` is the `__DEV__` build flag; the dev
warning for non-object targets is modelled by the warning counter. -/
def createReactiveObject (dev : Bool) (h : Heap) (v : Value) (k : Kind) :
    Value × Heap :=
  match v with
  | Value.vObj id =>
    if (rawRefId h id).isSome &&
        !(k.isRO && truthy (readFlagObj h id Flag.isReactiveF)) then
      (v, h)
    else
      match mapLookup (h.mapFor k) id with
      | some p => (Value.vObj p, h)
      | none =>
        if getTargetType h id = TargetType.invalid then (v, h)
        else
          let pid := h.objs.length
          let pdata : ObjData :=
            { rtype := toRawTypeVal h id, skip := false, extensible := true,
              proxyOf := some (id, k) }
          let h1 := { h with objs := h.objs ++ [pdata] }
          (Value.vObj pid, h1.setMap k ((id, pid) :: h1.mapFor k))
  | _ =>
    (v, if dev then { h with warnings := h.warnings + 1 } else h)

/-- `reactive(target)`: readonly data is returned unchanged, otherwise
convert with the mutable deep kind. -/
def reactive (dev : Bool) (h : Heap) (v : Value) : Value × Heap :=
  if isReadonlyB h v then (v, h)
  else createReactiveObject dev h v Kind.reactiveKind

/-- `shallowReactive(target)`. -/
def shallowReactive (dev : Bool) (h : Heap) (v : Value) : Value × Heap :=
  createReactiveObject dev h v Kind.shallowReactiveKind

/-- `readonly(target)`. -/
def readonly (dev : Bool) (h : Heap) (v : Value) : Value × Heap :=
  createReactiveObject dev h v Kind.readonlyKind

/-- `shallowReadonly(target)`. -/
def shallowReadonly (dev : Bool) (h : Heap) (v : Value) : Value × Heap :=
  createReactiveObject dev h v Kind.shallowReadonlyKind

/-- The wrap operation of the spec, dispatching on the kind to the four
public constructors. -/
def wrap (dev : Bool) (h : Heap) (v : Value) : Kind → Value × Heap
  | .reactiveKind => reactive dev h v
  | .shallowReactiveKind => shallowReactive dev h v
  | .readonlyKind => readonly dev h v
  | .shallowReadonlyKind => shallowReadonly dev h v

/-! ## Keep-alive cache (`KeepAlive.ts`) -/

namespace ShapeFlags

def STATEFUL_COMPONENT : Nat := 4

def SUSPENSE : Nat := 128

def COMPONENT_SHOULD_KEEP_ALIVE : Nat := 256

def COMPONENT_KEPT_ALIVE : Nat := 512

end ShapeFlags

/-- The parts of a VNode the keep-alive cache reads and writes: the component
identity `vnode.type` (as a numeric id), `getComponentName(vnode.type)`,
the explicit `vnode.key` (if any), the `shapeFlag` bit set, and the mounted
state `el` / `component` copied between cached and fresh vnodes.
Suspense subtrees (`ssContent`) are not modelled: no claim concerns
suspense, and `getInnerChild` below treats a suspense-flagged vnode as its
own inner child.  The async-wrapper name resolution
(`__asyncResolved`) is likewise folded into `nameOf`. -/
structure VNode where
  typeId : Nat
  nameOf : Option String
  keyOf : Option Nat
  shapeFlag : Nat
  el : Option Nat
  component : Option Nat
deriving DecidableEq

def hasFlag (v : VNode) (f : Nat) : Bool := (v.shapeFlag &&& f) != 0

/-- `resetShapeFlag(vnode)`: clear `COMPONENT_SHOULD_KEEP_ALIVE` and
`COMPONENT_KEPT_ALIVE` by subtraction, as the source does. -/
def resetShapeFlag (v : VNode) : VNode :=
  let sf := v.shapeFlag
  let sf := if (sf &&& ShapeFlags.COMPONENT_SHOULD_KEEP_ALIVE) != 0 then
      sf - ShapeFlags.COMPONENT_SHOULD_KEEP_ALIVE else sf
  let sf := if (sf &&& ShapeFlags.COMPONENT_KEPT_ALIVE) != 0 then
      sf - ShapeFlags.COMPONENT_KEPT_ALIVE else sf
  { v with shapeFlag := sf }

/-- `CacheKey`: the subtree's explicit key when present, else its component
type identity. -/
inductive CacheKey where
  | explicitKey (n : Nat)
  | compKey (t : Nat)
deriving DecidableEq

/-- `Map.get` on the cache (association list in insertion order). -/
def lookupA : List (CacheKey × VNode) → CacheKey → Option VNode
  | [], _ => none
  | (k, v) :: rest, key => if k = key then some v else lookupA rest key

/-- `Map.delete` on the cache. -/
def eraseA (c : List (CacheKey × VNode)) (key : CacheKey) :
    List (CacheKey × VNode) :=
  c.filter (fun p => p.1 != key)

/-- `Map.set` on the cache: overwrite in place, append when new (JS Map
insertion-order semantics). -/
def setA : List (CacheKey × VNode) → CacheKey → VNode → List (CacheKey × VNode)
  | [], key, v => [(key, v)]
  | (k, w) :: rest, key, v =>
    if k = key then (k, v) :: rest else (k, w) :: setA rest key v

/-- `Set.add` on `keys`: appends only when absent. -/
def addKey (ks : List CacheKey) (key : CacheKey) : List CacheKey :=
  if key ∈ ks then ks else ks ++ [key]

/-- `Set.delete` on `keys`. -/
def delKey (ks : List CacheKey) (key : CacheKey) : List CacheKey :=
  ks.filter (fun k => k != key)

/-- The `include` / `exclude` match patterns: a comma-separated string list,
an array of patterns, or a RegExp (abstracted as its `test` predicate). -/
inductive MatchPattern where
  | strPat (s : String)
  | arrPat (ps : List MatchPattern)
  | testPat (f : String → Bool)

/-- `pattern.split(',')` (structurally recursive so that concrete pattern
strings evaluate inside the kernel). -/
def splitCommaAux : List Char → List (List Char)
  | [] => [[]]
  | c :: rest =>
    let acc := splitCommaAux rest
    if c = ',' then [] :: acc
    else
      match acc with
      | [] => [[c]]
      | h :: t => (c :: h) :: t

def splitComma (s : String) : List String :=
  (splitCommaAux s.data).map (fun cs => String.mk cs)

mutual

/-- `matches(pattern, name)`. -/
def patMatches : MatchPattern → String → Bool
  | .arrPat ps, name => patMatchesAny ps name
  | .strPat s, name => (splitComma s).contains name
  | .testPat f, name => f name

/-- `pattern.some(p => matches(p, name))`. -/
def patMatchesAny : List MatchPattern → String → Bool
  | [], _ => false
  | p :: rest, name => patMatches p name || patMatchesAny rest name

end

/-- The keep-alive props (`max` is modelled as its parsed numeric value; the
string form goes through `parseInt` in the source). -/
structure KAProps where
  includeP : Option MatchPattern
  excludeP : Option MatchPattern
  max : Option Nat

/-- The cache-eligibility test of the render closure:
`(include && (!name || !matches(include, name))) ||
 (exclude && name && matches(exclude, name))`. -/
def notEligible (props : KAProps) (name : Option String) : Bool :=
  (match props.includeP, name with
   | some _, none => true
   | some pat, some n => !patMatches pat n
   | none, _ => false)
  ||
  (match props.excludeP, name with
   | some pat, some n => patMatches pat n
   | _, _ => false)

/-- The mutable state owned by one keep-alive instance: the `cache` map, the
insertion-ordered `keys` set, the `current` vnode, the `pendingCacheKey`
communicated from render to the mounted/updated hook, and a log of the keys
whose cached subtree `pruneCacheEntry` force-unmounted. -/
structure KAState where
  cache : List (CacheKey × VNode)
  keys : List CacheKey
  current : Option VNode
  pendingCacheKey : Option CacheKey
  unmountLog : List CacheKey
deriving DecidableEq

def KAState.initial : KAState :=
  { cache := [], keys := [], current := none, pendingCacheKey := none,
    unmountLog := [] }

/-- `pruneCacheEntry(key)`: unmount the cached subtree unless it is the
currently active one (then only reset the current vnode's keep-alive flags),
and delete the key from both `cache` and `keys`.  When the key is absent
from the cache the source would dereference `undefined`; that situation is
unreachable from the call sites under the cache invariant, and is modelled
as the plain deletion. -/
def pruneCacheEntry (st : KAState) (key : CacheKey) : KAState :=
  let base := { st with cache := eraseA st.cache key,
                        keys := delKey st.keys key }
  match lookupA st.cache key with
  | none => base
  | some cached =>
    match st.current with
    | none => { base with unmountLog := st.unmountLog ++ [key] }
    | some cur =>
      if cached.typeId != cur.typeId then
        { base with unmountLog := st.unmountLog ++ [key] }
      else
        { base with current := some (resetShapeFlag cur) }

/-- The test `!filter || !filter(name)` inside `pruneCache`. -/
def pruneFilterTest (filter : Option (String → Bool)) (name : String) : Bool :=
  match filter with
  | some f => !f name
  | none => true

/-- One `Map.forEach` step of `pruneCache`: prune the entry when it has a
component name that fails the filter. -/
def pruneStep (filter : Option (String → Bool)) (acc : KAState)
    (entry : CacheKey × VNode) : KAState :=
  match entry.2.nameOf with
  | some name =>
    if pruneFilterTest filter name then pruneCacheEntry acc entry.1
    else acc
  | none => acc

/-- `pruneCache(filter)`: for each cache entry whose component name fails the
filter, prune it.  JS `Map.forEach` visits the entries present at iteration
start; each prune deletes only the visited key, so iterating the snapshot is
faithful. -/
def pruneCache (st : KAState) (filter : Option (String → Bool)) : KAState :=
  st.cache.foldl (pruneStep filter) st

/-- `getInnerChild(vnode)`: the source returns `vnode.ssContent` for
suspense vnodes; suspense subtrees are not modelled (see `VNode`), so this
is the identity. -/
def getInnerChild (v : VNode) : VNode := v

/-- The cache key of a child: `vnode.key == null ? comp : vnode.key`. -/
def kaKey (v : VNode) : CacheKey :=
  match v.keyOf with
  | none => CacheKey.compKey v.typeId
  | some k => CacheKey.explicitKey k

/-- What the keep-alive render closure returns to the renderer. -/
inductive KAResult where
  | nothingR
  | multipleR (cs : List VNode)
  | singleR (v : VNode)
deriving DecidableEq

/-- The render closure of `KeepAliveImpl.setup`.  `slotChildren` is
`slots.default()` when the slot exists.  A child that is not a vnode at all
behaves exactly like a vnode failing the stateful/suspense shape test
(`current = null; return rawVNode`), so slot children are modelled as
vnodes. -/
def kaRender (props : KAProps) (st0 : KAState)
    (slotChildren : Option (List VNode)) : KAResult × KAState :=
  let st := { st0 with pendingCacheKey := none }
  match slotChildren with
  | none => (KAResult.nothingR, st)
  | some children =>
    if children.length > 1 then
      (KAResult.multipleR children, { st with current := none })
    else
      match children.head? with
      | none => (KAResult.nothingR, { st with current := none })
      | some rawVNode =>
        if !hasFlag rawVNode ShapeFlags.STATEFUL_COMPONENT &&
            !hasFlag rawVNode ShapeFlags.SUSPENSE then
          (KAResult.singleR rawVNode, { st with current := none })
        else
          let vnode := getInnerChild rawVNode
          let name := vnode.nameOf
          if notEligible props name then
            (KAResult.singleR rawVNode, { st with current := some vnode })
          else
            let key := kaKey vnode
            let cachedVNode := lookupA st.cache key
            let st := { st with pendingCacheKey := some key }
            match cachedVNode with
            | some cached =>
              let vnode := { vnode with
                el := cached.el,
                component := cached.component,
                shapeFlag :=
                  vnode.shapeFlag ||| ShapeFlags.COMPONENT_KEPT_ALIVE }
              let st := { st with keys := addKey (delKey st.keys key) key }
              let vnode := { vnode with
                shapeFlag :=
                  vnode.shapeFlag ||| ShapeFlags.COMPONENT_SHOULD_KEEP_ALIVE }
              (KAResult.singleR vnode, { st with current := some vnode })
            | none =>
              let st := { st with keys := addKey st.keys key }
              let st :=
                match props.max with
                | some m =>
                  if m != 0 && st.keys.length > m then
                    match st.keys.head? with
                    | some k0 => pruneCacheEntry st k0
                    | none => st
                  else st
                | none => st
              let vnode := { vnode with
                shapeFlag :=
                  vnode.shapeFlag ||| ShapeFlags.COMPONENT_SHOULD_KEEP_ALIVE }
              (KAResult.singleR vnode, { st with current := some vnode })

/-- `cacheSubtree` (the mounted/updated hook): when a cache key is pending,
store the inner child of the subtree the last render produced. -/
def cacheSubtree (st : KAState) (subTree : VNode) : KAState :=
  match st.pendingCacheKey with
  | some k => { st with cache := setA st.cache k (getInnerChild subTree) }
  | none => st

/-- One full render cycle: the render closure followed by the paired
mounted/updated hook (which caches the returned subtree). -/
def renderCycle (props : KAProps) (st : KAState)
    (slotChildren : Option (List VNode)) : KAResult × KAState :=
  match kaRender props st slotChildren with
  | (KAResult.singleR v, st1) => (KAResult.singleR v, cacheSubtree st1 v)
  | r => r

/-- The externally-triggerable cache operations during the keep-alive
component's lifetime: a render (with its paired hook) and a prune caused by
the include/exclude watcher. -/
inductive KAOp where
  | render (slotChildren : Option (List VNode))
  | prune (filter : Option (String → Bool))

def kaStep (props : KAProps) (st : KAState) : KAOp → KAState
  | .render cs => (renderCycle props st cs).2
  | .prune f => pruneCache st f

def kaRun (props : KAProps) (ops : List KAOp) : KAState :=
  ops.foldl (kaStep props) KAState.initial

/-! ## Async component state machine (`apiAsyncComponent.ts`) -/

/-- An error value of the async wrapper: either the synthesized timeout
error or a loader failure (identified by a code). -/
inductive AErr where
  | timeoutErr
  | loadErr (code : Nat)
deriving DecidableEq

/-- The state owned by one `defineAsyncComponent` wrapper closure plus the
refs of its `setup` run: `pendingRequest` / `resolvedComp` / `retries` from
the wrapper closure, the `loaded` / `error` / `delayed` refs from `setup`,
a count of how many times the user-supplied `loader` function was invoked,
a supply of fresh request identities (each `loader()` call creates a new
promise object), and the log of errors routed to `handleError`. -/
structure ALoadState where
  pendingRequest : Option Nat
  resolvedComp : Option Nat
  retries : Nat
  loaderCalls : Nat
  nextReq : Nat
  loaded : Bool
  error : Option AErr
  delayed : Bool
  reported : List AErr
deriving DecidableEq

/-- `load()`: if a request is already pending return it, otherwise invoke
the loader once and record the new in-flight request. -/
def load (st : ALoadState) : Nat × ALoadState :=
  match st.pendingRequest with
  | some r => (r, st)
  | none =>
    (st.nextReq,
     { st with pendingRequest := some st.nextReq,
               loaderCalls := st.loaderCalls + 1,
               nextReq := st.nextReq + 1 })

/-- `retry()`: bump the attempt count, clear the in-flight request and
re-run `load()`. -/
def retryLoad (st : ALoadState) : Nat × ALoadState :=
  load { st with retries := st.retries + 1, pendingRequest := none }

/-- Call `load()` n times in sequence, keeping only the state. -/
def loadN : Nat → ALoadState → ALoadState
  | 0, st => st
  | n + 1, st => loadN n (load st).2

/-- `onError(err)` from `setup`: drop the in-flight request and route the
error through `handleError` (the standard error-reporting path). -/
def asyncOnError (st : ALoadState) (e : AErr) : ALoadState :=
  { st with pendingRequest := none, reported := st.reported ++ [e] }

/-- The asynchronous occurrences `setup` reacts to: the `delay` timer, the
`timeout` timer (armed only when a timeout is configured), and the outer
`load()` promise settling (success sets `resolvedComp` inside `load`'s own
then-chain and `loaded` in `setup`'s; failure runs `onError` and sets the
`error` ref). -/
inductive AEvent where
  | delayFires
  | timeoutFires
  | loadOk (comp : Nat)
  | loadFail (code : Nat)
deriving DecidableEq

/-- One event transition of the setup-time state machine, from the timer and
promise callbacks in `setup`.  `timeoutFires` synthesizes and reports the
timeout error only when the load has neither resolved nor errored. -/
def astep (st : ALoadState) : AEvent → ALoadState
  | .delayFires => { st with delayed := false }
  | .timeoutFires =>
    if !st.loaded && st.error.isNone then
      { asyncOnError st AErr.timeoutErr with error := some AErr.timeoutErr }
    else st
  | .loadOk c => { st with resolvedComp := some c, loaded := true }
  | .loadFail code =>
    { asyncOnError st (AErr.loadErr code) with
        error := some (AErr.loadErr code) }

/-- The wrapper configuration the render function consults: whether a
loading component and an error component were supplied. -/
structure ACfg where
  loadingComponent : Bool
  errorComponent : Bool
deriving DecidableEq

/-- What the async wrapper's render function returns. -/
inductive ARender where
  | real (c : Nat)
  | errorC (e : AErr)
  | loadingC
  | nothingR
deriving DecidableEq

/-- The render function returned by `setup`, in source priority order:
resolved first, then the error component, then the loading component once
the delay window has passed, else nothing. -/
def arender (cfg : ACfg) (st : ALoadState) : ARender :=
  match st.loaded, st.resolvedComp with
  | true, some c => ARender.real c
  | _, _ =>
    match st.error, cfg.errorComponent with
    | some e, true => ARender.errorC e
    | _, _ =>
      if cfg.loadingComponent && !st.delayed then ARender.loadingC
      else ARender.nothingR

/-- The state at the start of `setup` (fresh wrapper): nothing pending or
resolved, `delayed = !!delay`. -/
def ainit (delay : Nat) : ALoadState :=
  { pendingRequest := none, resolvedComp := none, retries := 0,
    loaderCalls := 0, nextReq := 0, loaded := false, error := none,
    delayed := delay != 0, reported := [] }

/-- Run a sequence of asynchronous events from the fresh setup state. -/
def arun (delay : Nat) (evs : List AEvent) : ALoadState :=
  evs.foldl astep (ainit delay)

/-- The number of timeout errors routed to the error-reporting path. -/
def timeoutReports (st : ALoadState) : Nat :=
  (st.reported.filter (fun e => e == AErr.timeoutErr)).length

/-! ## Concrete instances used by witnesses and counterexamples -/

/-- A heap holding one raw plain object (id 0). -/
def heap1 : Heap :=
  { objs := [{ rtype := RawType.objectR, skip := false, extensible := true,
               proxyOf := none }],
    reactiveMap := [], shallowReactiveMap := [], readonlyMap := [],
    shallowReadonlyMap := [], warnings := 0 }

/-- A heap holding one skip-flagged (markRaw-ed) plain object (id 0). -/
def heapSkip : Heap :=
  { objs := [{ rtype := RawType.objectR, skip := true, extensible := true,
               proxyOf := none }],
    reactiveMap := [], shallowReactiveMap := [], readonlyMap := [],
    shallowReadonlyMap := [], warnings := 0 }

/-- The heap after `reactive` wraps the plain object of `heap1` and
`markRaw` then skip-flags that same raw object: object 0 is skip-flagged
(an invalid target) yet its proxy (object 1) is already registered in the
reactive identity map. -/
def heapSkipCached : Heap :=
  (markRaw (reactive true heap1 (Value.vObj 0)).2 (Value.vObj 0)).2

/-- A stateful-component child vnode with the given type id and name. -/
def mkChild (t : Nat) (nm : String) : VNode :=
  { typeId := t, nameOf := some nm, keyOf := none,
    shapeFlag := ShapeFlags.STATEFUL_COMPONENT, el := none, component := none }

def childA : VNode := mkChild 0 "A"

def childB : VNode := mkChild 1 "B"

def childC : VNode := mkChild 2 "C"

/-- Keep-alive props with `max = 2` and no include/exclude patterns. -/
def propsMax2 : KAProps := { includeP := none, excludeP := none, max := some 2 }

/-- Keep-alive props with include pattern `"Foo"`. -/
def propsIncFoo : KAProps :=
  { includeP := some (MatchPattern.strPat "Foo"), excludeP := none,
    max := none }

/-- The scenario states: rendering A, then B, then C under `max = 2`. -/
def kaStA : KAState := kaStep propsMax2 KAState.initial (KAOp.render (some [childA]))

def kaStB : KAState := kaStep propsMax2 kaStA (KAOp.render (some [childB]))

def kaStC : KAState := kaStep propsMax2 kaStB (KAOp.render (some [childC]))

def kaHitB : KAResult × KAState := renderCycle propsMax2 kaStC (some [childB])

def kaMissA : KAResult × KAState := renderCycle propsMax2 kaHitB.2 (some [childA])

/-- Well-formedness of the four identity maps: each registered proxy really
is a proxy of its map key.  Every heap reachable by the operations of this
file satisfies it; it is the premise under which an identity-map cache hit
returns a proxy of the looked-up target. -/
def Heap.mapsOk (h : Heap) : Bool :=
  (h.reactiveMap ++ h.shallowReactiveMap ++ h.readonlyMap ++
    h.shallowReadonlyMap).all
    (fun e => rawRefId h e.2 == some e.1)

/-- A target in the sense of the spec glossary: a raw, unwrapped value
(primitives included); for object references, one with no `__v_raw`
back-reference. -/
def rawTargetB (h : Heap) : Value → Bool
  | .vObj id => (rawRefId h id).isNone
  | _ => true

/-- The keys present in the cache map, in insertion order. -/
def cacheKeys (st : KAState) : List CacheKey := st.cache.map Prod.fst

/-- Whether a render result is a vnode marked `COMPONENT_KEPT_ALIVE`,
i.e. a cache hit that the renderer will activate instead of mounting. -/
def kaResultKept (r : KAResult) : Bool :=
  match r with
  | KAResult.singleR v => hasFlag v ShapeFlags.COMPONENT_KEPT_ALIVE
  | _ => false

/-- The keep-alive cache invariant: `keys` and the key set of `cache` are
duplicate-free and contain exactly the same keys. -/
def KAInv (st : KAState) : Prop :=
  st.keys.Nodup ∧ (cacheKeys st).Nodup ∧
    ∀ k, k ∈ cacheKeys st ↔ k ∈ st.keys

/-! ## Proxy-layer lemmas -/

lemma Heap.mapFor_objs (h : Heap) (k : Kind) (l : List ObjData) :
    Heap.mapFor { h with objs := l } k = h.mapFor k := by
  cases k <;> rfl

lemma Heap.obj?_setMap (h : Heap) (k : Kind) (m : List (Nat × Nat)) (id : Nat) :
    (h.setMap k m).obj? id = h.obj? id := by
  cases k <;> rfl

lemma Heap.mapFor_setMap_self (h : Heap) (k : Kind) (m : List (Nat × Nat)) :
    (h.setMap k m).mapFor k = m := by
  cases k <;> rfl

lemma rawRefId_of_raw {h : Heap} {id : Nat} {o : ObjData}
    (hobj : h.obj? id = some o) (hpx : o.proxyOf = none) :
    rawRefId h id = none := by
  simp [rawRefId, hobj, hpx]

lemma rootIdF_of_raw {h : Heap} {id : Nat} (fuel : Nat)
    (hr : rawRefId h id = none) : rootIdF h fuel id = id := by
  cases fuel <;> simp [rootIdF, hr]

lemma rootId_of_raw {h : Heap} {id : Nat} {o : ObjData}
    (hobj : h.obj? id = some o) (hpx : o.proxyOf = none) :
    rootId h id = id :=
  rootIdF_of_raw _ (rawRefId_of_raw hobj hpx)

lemma readFlagObj_of_raw {h : Heap} {id : Nat} {o : ObjData}
    (hobj : h.obj? id = some o) (hpx : o.proxyOf = none) {f : Flag}
    (hf : f ≠ Flag.skipF) : readFlagObj h id f = Value.vUndefined := by
  cases f <;> simp_all [readFlagObj, hobj, hpx]

lemma isReadonlyB_of_raw {h : Heap} {id : Nat} {o : ObjData}
    (hobj : h.obj? id = some o) (hpx : o.proxyOf = none) :
    isReadonlyB h (Value.vObj id) = false := by
  simp [isReadonlyB, isReadonly, truthy, propRead, Except.map,
    readFlagObj_of_raw hobj hpx]

lemma getTargetType_of_raw {h : Heap} {id : Nat} {o : ObjData}
    (hobj : h.obj? id = some o) (hpx : o.proxyOf = none) :
    getTargetType h id =
      if o.skip || !o.extensible then TargetType.invalid
      else targetTypeMap o.rtype := by
  simp [getTargetType, skipVal, extensibleVal, toRawTypeVal,
    rootId_of_raw hobj hpx, hobj]

lemma toRawTypeVal_of_raw {h : Heap} {id : Nat} {o : ObjData}
    (hobj : h.obj? id = some o) (hpx : o.proxyOf = none) :
    toRawTypeVal h id = o.rtype := by
  simp [toRawTypeVal, rootId_of_raw hobj hpx, hobj]

lemma lt_length_of_obj? {h : Heap} {id : Nat} {o : ObjData}
    (hobj : h.obj? id = some o) : id < h.objs.length := by
  by_contra hlt
  rw [Heap.obj?, List.get?_eq_none.2 (Nat.le_of_not_lt hlt)] at hobj
  exact Option.noConfusion hobj

/-- Evaluation of `createReactiveObject` on a fresh, valid raw target:
a proxy is created at the end of the heap and registered in the kind's
identity map. -/
lemma create_fresh {h : Heap} {id : Nat} {o : ObjData} (dev : Bool) (k : Kind)
    (hobj : h.obj? id = some o) (hpx : o.proxyOf = none)
    (hskip : o.skip = false) (hext : o.extensible = true)
    (htt : targetTypeMap o.rtype ≠ TargetType.invalid)
    (hmap : mapLookup (h.mapFor k) id = none) :
    createReactiveObject dev h (Value.vObj id) k =
      (Value.vObj h.objs.length,
       Heap.setMap
         { h with objs := h.objs ++
             [{ rtype := o.rtype, skip := false, extensible := true,
                proxyOf := some (id, k) }] }
         k ((id, h.objs.length) :: h.mapFor k)) := by
  simp only [createReactiveObject, rawRefId_of_raw hobj hpx, Option.isSome_none,
    Bool.false_and, if_neg Bool.false_ne_true, hmap]
  rw [if_neg (by rw [getTargetType_of_raw hobj hpx, hskip, hext]; simpa)]
  simp [toRawTypeVal_of_raw hobj hpx, Heap.mapFor_objs]

lemma isReadonlyB_prim (h : Heap) {v : Value} (hv : isObjectV v = false) :
    isReadonlyB h v = false := by
  cases v with
  | vObj id => simp [isObjectV] at hv
  | vBool b =>
    cases b <;> simp [isReadonlyB, isReadonly, truthy, propRead, Except.map]
  | vNum n =>
    by_cases hn : n = 0 <;>
      simp [isReadonlyB, isReadonly, truthy, propRead, Except.map, hn]
  | vStr s =>
    by_cases hs : s = "" <;>
      simp [isReadonlyB, isReadonly, truthy, propRead, Except.map, hs]
  | vNull => simp [isReadonlyB, isReadonly, truthy]
  | vUndefined => simp [isReadonlyB, isReadonly, truthy]
  | vFun fid =>
    simp [isReadonlyB, isReadonly, truthy, propRead, Except.map]

lemma toRaw_prim (h : Heap) {v : Value} (hv : isObjectV v = false) :
    toRaw h v = v := by
  rw [toRaw]
  cases v with
  | vObj id => simp [isObjectV] at hv
  | vBool b => cases b <;> simp [toRawF, truthy, propRead]
  | vNum n => by_cases hn : n = 0 <;> simp [toRawF, truthy, propRead, hn]
  | vStr s => by_cases hs : s = "" <;> simp [toRawF, truthy, propRead, hs]
  | vNull => simp [toRawF, truthy]
  | vUndefined => simp [toRawF, truthy]
  | vFun fid => simp [toRawF, truthy, propRead]

/-! ## C10 -/

/-- C10: the public queries `isReactive`, `isReadonly`, `isShallow`,
`isProxy` are total on primitives (including `null` and `undefined`): they
return `false` without ever reading a property of a nullish value (no
thrown TypeError, modelled by `Except.ok`), and `toRaw` returns the value
itself. -/
theorem c10_queries_total_on_primitives (h : Heap) (v : Value)
    (hv : isObjectV v = false) :
    isReactive h v = Except.ok false ∧
    isReadonly h v = Except.ok false ∧
    isShallow h v = Except.ok false ∧
    isProxy h v = Except.ok false ∧
    toRaw h v = v := by
  have hro : isReadonly h v = Except.ok false := by
    cases v with
    | vBool b => cases b <;> simp [isReadonly, truthy, propRead, Except.map]
    | vNum n =>
      by_cases hn : n = 0 <;>
        simp [isReadonly, truthy, propRead, Except.map, hn]
    | vStr s =>
      by_cases hs : s = "" <;>
        simp [isReadonly, truthy, propRead, Except.map, hs]
    | vObj id => simp [isObjectV] at hv
    | vNull => simp [isReadonly, truthy]
    | vUndefined => simp [isReadonly, truthy]
    | vFun fid => simp [isReadonly, truthy, propRead, Except.map]
  have hroB : isReadonlyB h v = false := by
    simp [isReadonlyB, hro]
  have hre : isReactive h v = Except.ok false := by
    rw [isReactive]
    cases v with
    | vBool b => cases b <;> simp [isReactiveF, hroB, truthy, propRead, Except.map]
    | vNum n =>
      by_cases hn : n = 0
      · subst hn; simp [isReactiveF, hroB, truthy, propRead, Except.map]
      · simp [isReactiveF, hroB, truthy, propRead, Except.map, hn]
    | vStr s =>
      by_cases hs : s = ""
      · subst hs; simp [isReactiveF, hroB, truthy, propRead, Except.map]
      · simp [isReactiveF, hroB, truthy, propRead, Except.map, hs]
    | vObj id => simp [isObjectV] at hv
    | vNull => simp [isReactiveF, hroB, truthy]
    | vUndefined => simp [isReactiveF, hroB, truthy]
    | vFun fid =>
      simp [isReactiveF, hroB, truthy, propRead, Except.map]
  have hsh : isShallow h v = Except.ok false := by
    cases v with
    | vBool b => cases b <;> simp [isShallow, truthy, propRead, Except.map]
    | vNum n =>
      by_cases hn : n = 0 <;>
        simp [isShallow, truthy, propRead, Except.map, hn]
    | vStr s =>
      by_cases hs : s = "" <;>
        simp [isShallow, truthy, propRead, Except.map, hs]
    | vObj id => simp [isObjectV] at hv
    | vNull => simp [isShallow, truthy]
    | vUndefined => simp [isShallow, truthy]
    | vFun fid => simp [isShallow, truthy, propRead, Except.map]
  refine ⟨hre, hro, hsh, ?_, ?_⟩
  · simp [isProxy, hre, hro]
  · rw [toRaw]
    cases v with
    | vBool b => cases b <;> simp [toRawF, truthy, propRead]
    | vNum n =>
      by_cases hn : n = 0 <;> simp [toRawF, truthy, propRead, hn]
    | vStr s =>
      by_cases hs : s = "" <;> simp [toRawF, truthy, propRead, hs]
    | vObj id => simp [isObjectV] at hv
    | vNull => simp [toRawF, truthy]
    | vUndefined => simp [toRawF, truthy]
    | vFun fid => simp [toRawF, truthy, propRead]

/-- Witness for C10 at the concrete input `null` (and, through the same
application, the empty-heap environment). -/
theorem c10_witness :
    isReactive heap1 Value.vNull = Except.ok false ∧
    isReadonly heap1 Value.vNull = Except.ok false ∧
    isShallow heap1 Value.vNull = Except.ok false ∧
    isProxy heap1 Value.vNull = Except.ok false ∧
    toRaw heap1 Value.vNull = Value.vNull :=
  c10_queries_total_on_primitives heap1 Value.vNull (by decide)

/-! ## C8 -/

/-- C8 counterexample: the claim as stated fails for an invalid target that
already has a cached proxy.  `heapSkipCached` is reached by `reactive` on a
plain object followed by `markRaw` on the same raw object: the target (id 0)
is skip-flagged, yet `createReactiveObject` consults the identity map before
`getTargetType`, so wrapping it again returns the previously-created proxy
(id 1) -- not the original value. -/
theorem c8_counterexample :
    (heapSkipCached.obj? 0).map ObjData.skip = some true ∧
    (wrap true heapSkipCached (Value.vObj 0) Kind.reactiveKind).1 =
      Value.vObj 1 ∧
    (wrap true heapSkipCached (Value.vObj 0) Kind.reactiveKind).1 ≠
      Value.vObj 0 :=
  ⟨by decide, by decide, by decide⟩

/-- C8 amended: (a) a non-structured value (a primitive, or a function --
`typeof` not `'object'`) is returned as-is and never proxied; the only side
effect is the dev-build-only warning.  (b) A structured target that is
skip-flagged, non-extensible, or of a disallowed underlying type, and that
has no previously-cached proxy in the requested kind's identity map, is
returned as-is with no heap change at all (no warning, no proxy, no
identity-map entry).  (c) When such a target does have a cached proxy --
it was wrapped before becoming invalid -- the identity-map lookup precedes
the type check and returns the cached proxy, with no heap change and no
warning. -/
theorem c8_invalid_wrap_passthrough :
    (∀ (dev : Bool) (h : Heap) (v : Value) (k : Kind), isObjectV v = false →
      wrap dev h v k =
        (v, if dev then { h with warnings := h.warnings + 1 } else h)) ∧
    (∀ (dev : Bool) (h : Heap) (id : Nat) (o : ObjData) (k : Kind),
      h.obj? id = some o → o.proxyOf = none →
      (o.skip = true ∨ o.extensible = false ∨
        targetTypeMap o.rtype = TargetType.invalid) →
      mapLookup (h.mapFor k) id = none →
      wrap dev h (Value.vObj id) k = (Value.vObj id, h)) ∧
    (∀ (dev : Bool) (h : Heap) (id p : Nat) (o : ObjData) (k : Kind),
      h.obj? id = some o → o.proxyOf = none →
      mapLookup (h.mapFor k) id = some p →
      wrap dev h (Value.vObj id) k = (Value.vObj p, h)) := by
  refine ⟨?_, ?_, ?_⟩
  · intro dev h v k hv
    have hro := isReadonlyB_prim h hv
    cases k <;> cases v <;>
      simp_all [wrap, reactive, shallowReactive, readonly, shallowReadonly,
        createReactiveObject, isObjectV]
  · intro dev h id o k hobj hpx hbad hmap
    have hraw := rawRefId_of_raw hobj hpx
    have hroB := isReadonlyB_of_raw hobj hpx
    have htt : getTargetType h id = TargetType.invalid := by
      rw [getTargetType_of_raw hobj hpx]
      rcases hbad with h1 | h1 | h1 <;> simp [h1]
    cases k <;>
      simp [wrap, reactive, shallowReactive, readonly, shallowReadonly,
        createReactiveObject, hraw, hroB, hmap, htt]
  · intro dev h id p o k hobj hpx hmap
    have hraw := rawRefId_of_raw hobj hpx
    have hroB := isReadonlyB_of_raw hobj hpx
    cases k <;>
      simp [wrap, reactive, shallowReactive, readonly, shallowReadonly,
        createReactiveObject, hraw, hroB, hmap]

/-- Witness for C8: the number 5 (dev build) passes through with one
warning; a never-wrapped markRaw-ed plain object passes through with no
state change; the wrapped-then-markRaw-ed object of the counterexample
returns its cached proxy. -/
theorem c8_witness :
    wrap true heap1 (Value.vNum 5) Kind.reactiveKind =
      (Value.vNum 5, { heap1 with warnings := heap1.warnings + 1 }) ∧
    wrap true heapSkip (Value.vObj 0) Kind.reactiveKind =
      (Value.vObj 0, heapSkip) ∧
    wrap true heapSkipCached (Value.vObj 0) Kind.reactiveKind =
      (Value.vObj 1, heapSkipCached) :=
  ⟨c8_invalid_wrap_passthrough.1 true heap1 (Value.vNum 5) Kind.reactiveKind
      (by decide),
   c8_invalid_wrap_passthrough.2.1 true heapSkip 0
      { rtype := RawType.objectR, skip := true, extensible := true,
        proxyOf := none }
      Kind.reactiveKind rfl rfl (Or.inl rfl) rfl,
   c8_invalid_wrap_passthrough.2.2 true heapSkipCached 0 1
      { rtype := RawType.objectR, skip := true, extensible := true,
        proxyOf := none }
      Kind.reactiveKind (by decide) rfl (by decide)⟩

/-! ## C6 -/

/-- C6: for a structured, extensible, non-skip-flagged raw target of an
allowed type, wrapping twice with the same kind returns the identical proxy
(the second wrap is an identity-map cache hit) and leaves the heap
unchanged. -/
theorem c6_rewrap_same_kind_identity (dev dev2 : Bool) (h : Heap) (id : Nat)
    (o : ObjData) (k : Kind)
    (hobj : h.obj? id = some o) (hpx : o.proxyOf = none)
    (hskip : o.skip = false) (hext : o.extensible = true)
    (htt : targetTypeMap o.rtype ≠ TargetType.invalid) :
    (wrap dev2 (wrap dev h (Value.vObj id) k).2 (Value.vObj id) k).1 =
      (wrap dev h (Value.vObj id) k).1 ∧
    (wrap dev2 (wrap dev h (Value.vObj id) k).2 (Value.vObj id) k).2 =
      (wrap dev h (Value.vObj id) k).2 := by
  have hraw := rawRefId_of_raw hobj hpx
  have hroB := isReadonlyB_of_raw hobj hpx
  cases hmv : mapLookup (h.mapFor k) id with
  | some p =>
    have h1 : wrap dev h (Value.vObj id) k = (Value.vObj p, h) := by
      cases k <;>
        simp [wrap, reactive, shallowReactive, readonly, shallowReadonly,
          createReactiveObject, hraw, hroB, hmv]
    have h2 : wrap dev2 h (Value.vObj id) k = (Value.vObj p, h) := by
      cases k <;>
        simp [wrap, reactive, shallowReactive, readonly, shallowReadonly,
          createReactiveObject, hraw, hroB, hmv]
    rw [h1, h2]
    exact ⟨rfl, rfl⟩
  | none =>
    have hcr := create_fresh (h := h) dev k hobj hpx hskip hext htt hmv
    have h1 : wrap dev h (Value.vObj id) k =
        (Value.vObj h.objs.length,
         Heap.setMap
           { h with objs := h.objs ++
               [{ rtype := o.rtype, skip := false, extensible := true,
                  proxyOf := some (id, k) }] }
           k ((id, h.objs.length) :: h.mapFor k)) := by
      cases k <;>
        simp [wrap, reactive, shallowReactive, readonly, shallowReadonly,
          hroB] <;> exact hcr
    set pdata : ObjData :=
      { rtype := o.rtype, skip := false, extensible := true,
        proxyOf := some (id, k) } with hpdata
    set h2 : Heap :=
      Heap.setMap { h with objs := h.objs ++ [pdata] }
        k ((id, h.objs.length) :: h.mapFor k) with hh2
    have hobj2 : h2.obj? id = some o := by
      rw [hh2, Heap.obj?_setMap]
      simp only [Heap.obj?]
      rw [List.get?_append (lt_length_of_obj? hobj)]
      exact hobj
    have hraw2 := rawRefId_of_raw hobj2 hpx
    have hroB2 := isReadonlyB_of_raw hobj2 hpx
    have hmv2 : mapLookup (h2.mapFor k) id = some h.objs.length := by
      rw [hh2, Heap.mapFor_setMap_self]
      simp [mapLookup]
    have h3 : wrap dev2 h2 (Value.vObj id) k =
        (Value.vObj h.objs.length, h2) := by
      cases k <;>
        simp [wrap, reactive, shallowReactive, readonly, shallowReadonly,
          createReactiveObject, hraw2, hroB2, hmv2]
    rw [h1, h3]
    exact ⟨rfl, rfl⟩

/-- Witness for C6 at the concrete one-object heap and the deep mutable
kind. -/
theorem c6_witness :
    (wrap true (wrap true heap1 (Value.vObj 0) Kind.reactiveKind).2
        (Value.vObj 0) Kind.reactiveKind).1 =
      (wrap true heap1 (Value.vObj 0) Kind.reactiveKind).1 ∧
    (wrap true (wrap true heap1 (Value.vObj 0) Kind.reactiveKind).2
        (Value.vObj 0) Kind.reactiveKind).2 =
      (wrap true heap1 (Value.vObj 0) Kind.reactiveKind).2 :=
  c6_rewrap_same_kind_identity true true heap1 0
    { rtype := RawType.objectR, skip := false, extensible := true,
      proxyOf := none }
    Kind.reactiveKind rfl rfl rfl rfl (by decide)

/-! ## C7 -/

lemma mapLookup_mem {l : List (Nat × Nat)} {t p : Nat}
    (hl : mapLookup l t = some p) : (t, p) ∈ l := by
  induction l with
  | nil => simp [mapLookup] at hl
  | cons e rest ih =>
    obtain ⟨a, b⟩ := e
    by_cases hat : a = t
    · subst hat
      simp [mapLookup] at hl
      simp [hl]
    · rw [mapLookup, if_neg hat] at hl
      exact List.mem_cons_of_mem _ (ih hl)

lemma mapsOk_lookup {h : Heap} {k : Kind} {t p : Nat}
    (hok : h.mapsOk = true) (hl : mapLookup (h.mapFor k) t = some p) :
    rawRefId h p = some t := by
  have hmem := mapLookup_mem hl
  rw [Heap.mapsOk, List.all_eq_true] at hok
  have hin : (t, p) ∈ h.reactiveMap ++ h.shallowReactiveMap ++
      h.readonlyMap ++ h.shallowReadonlyMap := by
    cases k <;> simp [Heap.mapFor] at hmem <;> simp [hmem]
  simpa using hok (t, p) hin

lemma bind_none_of_rawRef_none {h : Heap} {id : Nat}
    (hr : rawRefId h id = none) :
    (h.obj? id).bind (fun o => o.proxyOf) = none := by
  rw [rawRefId] at hr
  exact Option.map_eq_none'.mp hr

lemma isReadonlyB_of_noraw {h : Heap} {id : Nat}
    (hr : rawRefId h id = none) : isReadonlyB h (Value.vObj id) = false := by
  simp [isReadonlyB, isReadonly, truthy, propRead, Except.map, readFlagObj,
    bind_none_of_rawRef_none hr]

/-- `toRaw` on a raw object (no back-reference) stops immediately. -/
lemma toRawF_of_raw {h : Heap} {id : Nat} (fuel : Nat)
    (hr : rawRefId h id = none) :
    toRawF h fuel (Value.vObj id) = Value.vObj id := by
  cases fuel with
  | zero => rfl
  | succ n =>
    simp [toRawF, truthy, propRead, readFlagObj,
      bind_none_of_rawRef_none hr]

/-- `toRaw` on a one-step proxy of a raw object returns that object. -/
lemma toRaw_proxy_of_raw {h : Heap} {p id : Nat}
    (hp : rawRefId h p = some id) (hid : rawRefId h id = none) :
    toRaw h (Value.vObj p) = Value.vObj id := by
  obtain ⟨k0, hpx⟩ : ∃ k0, (h.obj? p).bind (fun o => o.proxyOf) =
      some (id, k0) := by
    rcases hbind : (h.obj? p).bind (fun o => o.proxyOf) with _ | ⟨t, k0⟩
    · rw [rawRefId, hbind] at hp
      exact Option.noConfusion hp
    · rw [rawRefId, hbind] at hp
      simp at hp
      subst hp
      exact ⟨k0, rfl⟩
  rw [toRaw]
  simp only [toRawF, truthy, propRead, readFlagObj, hpx]
  simp [toRawF_of_raw _ hid]

/-- In the proxy-creating branch the target must exist on the heap. -/
lemma obj?_isSome_of_valid {h : Heap} {id : Nat}
    (hr : rawRefId h id = none)
    (htt : getTargetType h id ≠ TargetType.invalid) :
    ∃ o, h.obj? id = some o := by
  rcases hobj : h.obj? id with _ | o
  · exfalso
    apply htt
    have hroot : rootId h id = id := rootIdF_of_raw _ hr
    simp [getTargetType, extensibleVal, skipVal, hroot, hobj]
  · exact ⟨o, rfl⟩

/-- C7: `toRaw` after wrapping a raw target with any kind returns the
original value, over any heap with well-formed identity maps. -/
theorem c7_toRaw_roundtrip (dev : Bool) (h : Heap) (v : Value) (k : Kind)
    (hok : h.mapsOk = true) (hv : rawTargetB h v = true) :
    toRaw (wrap dev h v k).2 (wrap dev h v k).1 = v := by
  cases v with
  | vObj id =>
    have hr : rawRefId h id = none := by
      simpa [rawTargetB, Option.isNone_iff_eq_none] using hv
    have hroB := isReadonlyB_of_noraw hr
    suffices hco : toRaw (createReactiveObject dev h (Value.vObj id) k).2
        (createReactiveObject dev h (Value.vObj id) k).1 = Value.vObj id by
      cases k <;>
        simpa [wrap, reactive, shallowReactive, readonly, shallowReadonly,
          hroB] using hco
    cases hmv : mapLookup (h.mapFor k) id with
    | some p =>
      have hpr : rawRefId h p = some id := mapsOk_lookup hok hmv
      have hres : createReactiveObject dev h (Value.vObj id) k =
          (Value.vObj p, h) := by
        simp [createReactiveObject, hr, hmv]
      rw [hres]
      exact toRaw_proxy_of_raw hpr hr
    | none =>
      by_cases htt : getTargetType h id = TargetType.invalid
      · have hres : createReactiveObject dev h (Value.vObj id) k =
            (Value.vObj id, h) := by
          simp [createReactiveObject, hr, hmv, htt]
        rw [hres]
        exact toRawF_of_raw _ hr
      · obtain ⟨o, hobj⟩ := obj?_isSome_of_valid hr htt
        have hpx : o.proxyOf = none := by
          have := bind_none_of_rawRef_none hr
          rw [hobj] at this
          simpa using this
        have hres : createReactiveObject dev h (Value.vObj id) k =
            (Value.vObj h.objs.length,
             Heap.setMap
               { h with objs := h.objs ++
                   [{ rtype := toRawTypeVal h id, skip := false,
                      extensible := true, proxyOf := some (id, k) }] }
               k ((id, h.objs.length) :: h.mapFor k)) := by
          simp only [createReactiveObject, hr, Option.isSome_none,
            Bool.false_and, if_neg Bool.false_ne_true, hmv]
          rw [if_neg htt]
          simp [Heap.mapFor_objs]
        rw [hres]
        set pdata : ObjData :=
          { rtype := toRawTypeVal h id, skip := false, extensible := true,
            proxyOf := some (id, k) } with hpdata
        set h2 : Heap :=
          Heap.setMap { h with objs := h.objs ++ [pdata] }
            k ((id, h.objs.length) :: h.mapFor k) with hh2
        have hobjp : h2.obj? h.objs.length = some pdata := by
          rw [hh2, Heap.obj?_setMap]
          simp only [Heap.obj?]
          exact List.get?_concat_length h.objs pdata
        have hrp : rawRefId h2 h.objs.length = some id := by
          simp [rawRefId, hobjp, hpdata]
        have hobj2 : h2.obj? id = some o := by
          rw [hh2, Heap.obj?_setMap]
          simp only [Heap.obj?]
          rw [List.get?_append (lt_length_of_obj? hobj)]
          exact hobj
        have hr2 : rawRefId h2 id = none := by
          simp [rawRefId, hobj2, hpx]
        exact toRaw_proxy_of_raw hrp hr2
  | vNull => cases k <;>
      simp [wrap, reactive, shallowReactive, readonly, shallowReadonly,
        isReadonlyB_prim h (v := Value.vNull) rfl, createReactiveObject,
        toRaw_prim _ (v := Value.vNull) rfl]
  | vUndefined => cases k <;>
      simp [wrap, reactive, shallowReactive, readonly, shallowReadonly,
        isReadonlyB_prim h (v := Value.vUndefined) rfl, createReactiveObject,
        toRaw_prim _ (v := Value.vUndefined) rfl]
  | vBool b => cases k <;>
      simp [wrap, reactive, shallowReactive, readonly, shallowReadonly,
        isReadonlyB_prim h (v := Value.vBool b) rfl, createReactiveObject,
        toRaw_prim _ (v := Value.vBool b) rfl]
  | vNum n => cases k <;>
      simp [wrap, reactive, shallowReactive, readonly, shallowReadonly,
        isReadonlyB_prim h (v := Value.vNum n) rfl, createReactiveObject,
        toRaw_prim _ (v := Value.vNum n) rfl]
  | vStr sv => cases k <;>
      simp [wrap, reactive, shallowReactive, readonly, shallowReadonly,
        isReadonlyB_prim h (v := Value.vStr sv) rfl, createReactiveObject,
        toRaw_prim _ (v := Value.vStr sv) rfl]
  | vFun fid => cases k <;>
      simp [wrap, reactive, shallowReactive, readonly, shallowReadonly,
        isReadonlyB_prim h (v := Value.vFun fid) rfl, createReactiveObject,
        toRaw_prim _ (v := Value.vFun fid) rfl]

/-- Witness for C7 at the concrete one-object heap with the readonly kind. -/
theorem c7_witness :
    toRaw (wrap true heap1 (Value.vObj 0) Kind.readonlyKind).2
      (wrap true heap1 (Value.vObj 0) Kind.readonlyKind).1 = Value.vObj 0 :=
  c7_toRaw_roundtrip true heap1 (Value.vObj 0) Kind.readonlyKind
    (by decide) (by decide)

/-! ## C4 -/

/-- C4: wrapping a valid raw target with `readonly` and then passing the
resulting readonly proxy to `reactive` returns the readonly proxy itself,
with no state change, and the result still answers `isReadonly` with
`true`. -/
theorem c4_reactive_of_readonly_unchanged (dev dev2 : Bool) (h : Heap)
    (id : Nat) (o : ObjData)
    (hobj : h.obj? id = some o) (hpx : o.proxyOf = none)
    (hskip : o.skip = false) (hext : o.extensible = true)
    (htt : targetTypeMap o.rtype ≠ TargetType.invalid)
    (hmap : mapLookup h.readonlyMap id = none) :
    reactive dev2 (readonly dev h (Value.vObj id)).2
        (readonly dev h (Value.vObj id)).1 =
      ((readonly dev h (Value.vObj id)).1,
       (readonly dev h (Value.vObj id)).2) ∧
    isReadonly (readonly dev h (Value.vObj id)).2
      (readonly dev h (Value.vObj id)).1 = Except.ok true := by
  have hmap' : mapLookup (h.mapFor Kind.readonlyKind) id = none := hmap
  have hcr := create_fresh (h := h) dev Kind.readonlyKind hobj hpx hskip
    hext htt hmap'
  have hro : readonly dev h (Value.vObj id) =
      (Value.vObj h.objs.length,
       Heap.setMap
         { h with objs := h.objs ++
             [{ rtype := o.rtype, skip := false, extensible := true,
                proxyOf := some (id, Kind.readonlyKind) }] }
         Kind.readonlyKind ((id, h.objs.length) :: h.mapFor
           Kind.readonlyKind)) := hcr
  rw [hro]
  set pdata : ObjData :=
    { rtype := o.rtype, skip := false, extensible := true,
      proxyOf := some (id, Kind.readonlyKind) } with hpdata
  set h2 : Heap :=
    Heap.setMap { h with objs := h.objs ++ [pdata] }
      Kind.readonlyKind ((id, h.objs.length) :: h.mapFor Kind.readonlyKind)
    with hh2
  have hobjp : h2.obj? h.objs.length = some pdata := by
    rw [hh2, Heap.obj?_setMap]
    simp only [Heap.obj?]
    exact List.get?_concat_length h.objs pdata
  have hret : isReadonly h2 (Value.vObj h.objs.length) = Except.ok true := by
    simp [isReadonly, truthy, propRead, Except.map, readFlagObj, hobjp,
      hpdata, Kind.isRO]
  refine ⟨?_, hret⟩
  have hretB : isReadonlyB h2 (Value.vObj h.objs.length) = true := by
    simp [isReadonlyB, hret]
  simp [reactive, hretB]

/-- Witness for C4 at the concrete one-object heap. -/
theorem c4_witness :
    reactive true (readonly true heap1 (Value.vObj 0)).2
        (readonly true heap1 (Value.vObj 0)).1 =
      ((readonly true heap1 (Value.vObj 0)).1,
       (readonly true heap1 (Value.vObj 0)).2) ∧
    isReadonly (readonly true heap1 (Value.vObj 0)).2
      (readonly true heap1 (Value.vObj 0)).1 = Except.ok true :=
  c4_reactive_of_readonly_unchanged true true heap1 0
    { rtype := RawType.objectR, skip := false, extensible := true,
      proxyOf := none }
    rfl rfl rfl rfl (by decide) rfl

/-! ## C3 -/

lemma load_inflight {st : ALoadState} {r : Nat}
    (hp : st.pendingRequest = some r) : load st = (r, st) := by
  simp [load, hp]

lemma loadN_inflight {st : ALoadState} {r : Nat}
    (hp : st.pendingRequest = some r) : ∀ n, loadN n st = st := by
  intro n
  induction n with
  | zero => rfl
  | succ m ih => rw [loadN, load_inflight hp]; exact ih

/-- C3: `load()` is idempotent while a request is in flight.  A call with a
pending request returns that same request and changes nothing; starting from
a no-request state, the first call invokes the loader exactly once, and any
number of further calls return the same request object without invoking the
loader again or changing the state. -/
theorem c3_load_idempotent_inflight :
    (∀ (st : ALoadState) (r : Nat), st.pendingRequest = some r →
      load st = (r, st)) ∧
    (∀ (st : ALoadState) (n : Nat), st.pendingRequest = none →
      loadN n (load st).2 = (load st).2 ∧
      (load (loadN n (load st).2)).1 = (load st).1 ∧
      (load st).2.loaderCalls = st.loaderCalls + 1) := by
  constructor
  · intro st r hp
    exact load_inflight hp
  · intro st n hp
    have hfirst : load st =
        (st.nextReq,
         { st with pendingRequest := some st.nextReq,
                   loaderCalls := st.loaderCalls + 1,
                   nextReq := st.nextReq + 1 }) := by
      simp [load, hp]
    have hinfl : (load st).2.pendingRequest = some (load st).1 := by
      rw [hfirst]
    refine ⟨loadN_inflight hinfl n, ?_, by rw [hfirst]⟩
    rw [loadN_inflight hinfl n, load_inflight hinfl]

/-- Witness for C3 at the fresh async state. -/
theorem c3_witness :
    (load { ainit 200 with pendingRequest := some 7 } =
      (7, { ainit 200 with pendingRequest := some 7 })) ∧
    (loadN 3 (load (ainit 200)).2 = (load (ainit 200)).2 ∧
      (load (loadN 3 (load (ainit 200)).2)).1 = (load (ainit 200)).1 ∧
      (load (ainit 200)).2.loaderCalls = (ainit 200).loaderCalls + 1) :=
  ⟨c3_load_idempotent_inflight.1 { ainit 200 with pendingRequest := some 7 }
      7 rfl,
   c3_load_idempotent_inflight.2 (ainit 200) 3 rfl⟩

/-! ## C5 -/

/-- The invariant behind "the timeout error fires at most once": a timeout
report implies the `error` ref is set, and no event ever clears it. -/
lemma astep_timeout_invariant (st : ALoadState)
    (h : timeoutReports st ≤ 1 ∧ (1 ≤ timeoutReports st → st.error.isSome))
    (ev : AEvent) :
    timeoutReports (astep st ev) ≤ 1 ∧
      (1 ≤ timeoutReports (astep st ev) → (astep st ev).error.isSome) := by
  obtain ⟨h1, h2⟩ := h
  cases ev with
  | delayFires => exact ⟨h1, h2⟩
  | timeoutFires =>
    by_cases hc : !st.loaded && st.error.isNone
    · have herrnone : st.error.isNone = true := by
        have hcc := hc
        simp only [Bool.and_eq_true] at hcc
        exact hcc.2
      have hzero : timeoutReports st = 0 := by
        by_contra hnz
        have := h2 (Nat.one_le_iff_ne_zero.mpr hnz)
        rw [Option.isNone_iff_eq_none.mp herrnone] at this
        simp at this
      have hrep : timeoutReports (astep st AEvent.timeoutFires) =
          timeoutReports st + 1 := by
        simp [astep, hc, asyncOnError, timeoutReports, List.filter_append]
      have herr : (astep st AEvent.timeoutFires).error =
          some AErr.timeoutErr := by
        simp [astep, hc]
      rw [hrep, hzero, herr]
      exact ⟨by omega, fun _ => rfl⟩
    · simp only [astep, hc, if_false]
      exact ⟨h1, h2⟩
  | loadOk c => exact ⟨h1, h2⟩
  | loadFail code =>
    constructor
    · have : timeoutReports (astep st (AEvent.loadFail code)) =
          timeoutReports st := by
        simp [astep, asyncOnError, timeoutReports, List.filter_append]
      rw [this]; exact h1
    · intro _
      rfl

lemma arun_foldl_invariant (l : List AEvent) (st : ALoadState)
    (hst : timeoutReports st ≤ 1 ∧ (1 ≤ timeoutReports st → st.error.isSome)) :
    timeoutReports (l.foldl astep st) ≤ 1 ∧
      (1 ≤ timeoutReports (l.foldl astep st) →
        (l.foldl astep st).error.isSome) := by
  induction l generalizing st with
  | nil => exact hst
  | cons e t ih => exact ih _ (astep_timeout_invariant st hst e)

/-- C5: timeout semantics of the async wrapper.
(1) Over any event sequence, the synthesized timeout error is routed to the
error-reporting path at most once.
(2) A firing timeout timer reports the timeout error exactly when the load
has neither resolved (`loaded`) nor errored (`error`) at that moment.
(3) The in-flight load is not cancelled: a success arriving after the
timeout fired still resolves the component, and the render function's
priority order renders the real component despite the earlier error. -/
theorem c5_timeout_fires_once_no_cancel :
    (∀ (delay : Nat) (evs : List AEvent),
      timeoutReports (arun delay evs) ≤ 1) ∧
    (∀ st : ALoadState,
      timeoutReports (astep st AEvent.timeoutFires) = timeoutReports st + 1 ↔
        (st.loaded = false ∧ st.error = none)) ∧
    (∀ (cfg : ACfg) (delay : Nat) (evs : List AEvent) (c : Nat),
      arender cfg
          (arun delay (evs ++ [AEvent.timeoutFires, AEvent.loadOk c])) =
        ARender.real c) := by
  refine ⟨?_, ?_, ?_⟩
  · intro delay evs
    have base : timeoutReports (ainit delay) ≤ 1 ∧
        (1 ≤ timeoutReports (ainit delay) → (ainit delay).error.isSome) := by
      constructor
      · simp [timeoutReports, ainit]
      · intro hx
        simp [timeoutReports, ainit] at hx
    exact (arun_foldl_invariant evs (ainit delay) base).1
  · intro st
    by_cases hc : (!st.loaded && st.error.isNone) = true
    · have hcc := hc
      simp only [Bool.and_eq_true, Bool.not_eq_true'] at hcc
      have hl : st.loaded = false := hcc.1
      have he : st.error = none := Option.isNone_iff_eq_none.mp hcc.2
      constructor
      · intro _
        exact ⟨hl, he⟩
      · intro _
        simp [astep, hc, asyncOnError, timeoutReports, List.filter_append]
    · have hstep : astep st AEvent.timeoutFires = st := by
        simp only [astep]
        rw [if_neg hc]
      have hne : ¬(st.loaded = false ∧ st.error = none) := by
        rintro ⟨hl, he⟩
        exact hc (by simp [hl, he])
      constructor
      · intro hx
        rw [hstep] at hx
        omega
      · intro hcontra
        exact absurd hcontra hne
  · intro cfg delay evs c
    rw [arun, List.foldl_append]
    simp [astep, arender]

/-! ## C9 -/

/-- C9: when the single component child fails the include/exclude
eligibility test, the render closure returns the child's vnode unchanged
(no keep-alive shape flags added), performs no cache interaction (`cache`
and `keys` untouched), and leaves no pending cache key, so the following
mounted/updated hook stores nothing either. -/
theorem c9_ineligible_child_no_cache (props : KAProps) (st : KAState)
    (rawVNode : VNode)
    (hshape : hasFlag rawVNode ShapeFlags.STATEFUL_COMPONENT = true ∨
      hasFlag rawVNode ShapeFlags.SUSPENSE = true)
    (hinel : notEligible props (getInnerChild rawVNode).nameOf = true) :
    renderCycle props st (some [rawVNode]) =
      (KAResult.singleR rawVNode,
       { st with pendingCacheKey := none,
                 current := some (getInnerChild rawVNode) }) := by
  have hsh : (!hasFlag rawVNode ShapeFlags.STATEFUL_COMPONENT &&
      !hasFlag rawVNode ShapeFlags.SUSPENSE) = false := by
    rcases hshape with hf | hf <;> simp [hf]
  simp [renderCycle, kaRender, hsh, hinel, cacheSubtree]

/-- Witness for C9: include pattern `"Foo"` with a child named `"Bar"`. -/
theorem c9_witness :
    renderCycle propsIncFoo KAState.initial (some [mkChild 7 "Bar"]) =
      (KAResult.singleR (mkChild 7 "Bar"),
       { KAState.initial with
           pendingCacheKey := none,
           current := some (getInnerChild (mkChild 7 "Bar")) }) :=
  c9_ineligible_child_no_cache propsIncFoo KAState.initial (mkChild 7 "Bar")
    (Or.inl (by decide)) (by decide)

/-! ## Keep-alive cache list lemmas -/

lemma lookupA_isSome_iff {c : List (CacheKey × VNode)} {k : CacheKey} :
    (lookupA c k).isSome ↔ k ∈ c.map Prod.fst := by
  induction c with
  | nil => simp [lookupA]
  | cons e rest ih =>
    obtain ⟨a, b⟩ := e
    by_cases hak : a = k
    · subst hak
      simp [lookupA]
    · rw [lookupA, if_neg hak]
      simp [ih, hak, Ne.symm hak]

lemma lookupA_eq_none_iff {c : List (CacheKey × VNode)} {k : CacheKey} :
    lookupA c k = none ↔ k ∉ c.map Prod.fst := by
  rw [← lookupA_isSome_iff]
  cases lookupA c k <;> simp

lemma mapFst_eraseA (c : List (CacheKey × VNode)) (key : CacheKey) :
    (eraseA c key).map Prod.fst =
      (c.map Prod.fst).filter (fun k => k != key) := by
  induction c with
  | nil => rfl
  | cons e rest ih =>
    obtain ⟨a, b⟩ := e
    by_cases hak : a = key
    · subst hak
      simp [eraseA, List.filter] at ih ⊢
      exact ih
    · have h1 : ((a, b).1 != key) = true := by simpa using hak
      have h2 : (a != key) = true := by simpa using hak
      simp only [eraseA] at ih ⊢
      simp [List.filter, h1, h2, ih]

lemma mapFst_setA (c : List (CacheKey × VNode)) (key : CacheKey) (v : VNode) :
    (setA c key v).map Prod.fst =
      if key ∈ c.map Prod.fst then c.map Prod.fst
      else c.map Prod.fst ++ [key] := by
  induction c with
  | nil => simp [setA]
  | cons e rest ih =>
    obtain ⟨a, b⟩ := e
    by_cases hak : a = key
    · subst hak
      simp [setA]
    · rw [setA, if_neg hak]
      simp only [List.map, ih]
      by_cases hk : key ∈ rest.map Prod.fst
      · simp [hk, Ne.symm hak]
      · simp [hk, Ne.symm hak]

lemma mem_delKey {ks : List CacheKey} {key a : CacheKey} :
    a ∈ delKey ks key ↔ a ∈ ks ∧ a ≠ key := by
  simp [delKey, List.mem_filter]

lemma nodup_delKey {ks : List CacheKey} (key : CacheKey) (h : ks.Nodup) :
    (delKey ks key).Nodup :=
  List.Nodup.filter _ h

lemma mem_addKey {ks : List CacheKey} {key a : CacheKey} :
    a ∈ addKey ks key ↔ a ∈ ks ∨ a = key := by
  rw [addKey]
  by_cases hk : key ∈ ks
  · rw [if_pos hk]
    constructor
    · exact Or.inl
    · rintro (h | h)
      · exact h
      · rwa [h]
  · rw [if_neg hk]
    simp

lemma addKey_not_mem {ks : List CacheKey} {key : CacheKey} (h : key ∉ ks) :
    addKey ks key = ks ++ [key] := by
  rw [addKey, if_neg h]

lemma nodup_addKey {ks : List CacheKey} (key : CacheKey) (h : ks.Nodup) :
    (addKey ks key).Nodup := by
  rw [addKey]
  by_cases hk : key ∈ ks
  · rwa [if_pos hk]
  · rw [if_neg hk]
    rw [List.nodup_append]
    exact ⟨h, List.nodup_singleton key,
      fun x hx hmem => hk ((List.mem_singleton.mp hmem) ▸ hx)⟩

lemma length_delKey_of_mem {ks : List CacheKey} {key : CacheKey}
    (hnd : ks.Nodup) (hm : key ∈ ks) :
    (delKey ks key).length + 1 = ks.length := by
  induction ks with
  | nil => simp at hm
  | cons a t ih =>
    by_cases hak : a = key
    · subst hak
      have hnin : a ∉ t := (List.nodup_cons.mp hnd).1
      have : delKey (a :: t) a = t := by
        rw [delKey, List.filter]
        simp only [bne_self_eq_false]
        exact List.filter_eq_self.mpr
          (fun x hx => by
            simp only [bne_iff_ne]
            exact fun hxa => hnin (hxa ▸ hx))
      rw [this]
      simp
    · have hmt : key ∈ t := by
        rcases List.mem_cons.mp hm with h | h
        · exact absurd h.symm hak
        · exact h
      have hrec := ih (List.nodup_cons.mp hnd).2 hmt
      rw [delKey, List.filter]
      rw [show (a != key) = true by simpa using hak]
      simp only [delKey] at hrec
      simp only [List.length_cons]
      omega

lemma delKey_append (ks1 ks2 : List CacheKey) (key : CacheKey) :
    delKey (ks1 ++ ks2) key = delKey ks1 key ++ delKey ks2 key := by
  simp [delKey, List.filter_append]

/-! ## Keep-alive invariant preservation -/

lemma pruneCacheEntry_cache (st : KAState) (key : CacheKey) :
    (pruneCacheEntry st key).cache = eraseA st.cache key := by
  rw [pruneCacheEntry]
  cases lookupA st.cache key with
  | none => rfl
  | some cached =>
    cases st.current with
    | none => rfl
    | some cur => by_cases hne : cached.typeId != cur.typeId <;> simp [hne]

lemma pruneCacheEntry_keys (st : KAState) (key : CacheKey) :
    (pruneCacheEntry st key).keys = delKey st.keys key := by
  rw [pruneCacheEntry]
  cases lookupA st.cache key with
  | none => rfl
  | some cached =>
    cases st.current with
    | none => rfl
    | some cur => by_cases hne : cached.typeId != cur.typeId <;> simp [hne]

lemma pruneCacheEntry_pending (st : KAState) (key : CacheKey) :
    (pruneCacheEntry st key).pendingCacheKey = st.pendingCacheKey := by
  rw [pruneCacheEntry]
  cases lookupA st.cache key with
  | none => rfl
  | some cached =>
    cases st.current with
    | none => rfl
    | some cur => by_cases hne : cached.typeId != cur.typeId <;> simp [hne]

/-- KAInv depends only on `cache` and `keys`. -/
lemma kaInv_congr {st st' : KAState} (h : KAInv st)
    (hc : st'.cache = st.cache) (hk : st'.keys = st.keys) : KAInv st' := by
  rw [KAInv, cacheKeys, hc, hk]
  exact h

lemma kaInv_pruneCacheEntry {st : KAState} (h : KAInv st) (key : CacheKey) :
    KAInv (pruneCacheEntry st key) := by
  obtain ⟨h1, h2, h3⟩ := h
  rw [KAInv, cacheKeys, pruneCacheEntry_cache, pruneCacheEntry_keys,
    mapFst_eraseA]
  refine ⟨nodup_delKey key h1, List.Nodup.filter _ h2, fun k => ?_⟩
  rw [mem_delKey]
  simp only [List.mem_filter, bne_iff_ne]
  rw [show (k ∈ List.map Prod.fst st.cache) ↔ k ∈ cacheKeys st from Iff.rfl,
    h3]

lemma kaInv_pruneStep {acc : KAState} (h : KAInv acc)
    (filter : Option (String → Bool)) (entry : CacheKey × VNode) :
    KAInv (pruneStep filter acc entry) := by
  rw [pruneStep]
  cases hn : entry.2.nameOf with
  | none => exact h
  | some name =>
    show KAInv (if pruneFilterTest filter name then
      pruneCacheEntry acc entry.1 else acc)
    by_cases hb : pruneFilterTest filter name = true
    · rw [if_pos hb]
      exact kaInv_pruneCacheEntry h entry.1
    · rw [if_neg hb]
      exact h

lemma kaInv_pruneCache {st : KAState} (h : KAInv st)
    (filter : Option (String → Bool)) : KAInv (pruneCache st filter) := by
  rw [pruneCache]
  generalize st.cache = l
  induction l generalizing st with
  | nil => exact h
  | cons e rest ih =>
    simp only [List.foldl_cons]
    exact ih (kaInv_pruneStep h filter e)

lemma kaInv_cacheSubtree {st : KAState} (h : KAInv st) (v : VNode)
    (hp : ∀ k, st.pendingCacheKey = some k → k ∈ st.keys) :
    KAInv (cacheSubtree st v) := by
  obtain ⟨h1, h2, h3⟩ := h
  rw [cacheSubtree]
  cases hpk : st.pendingCacheKey with
  | none => exact ⟨h1, h2, h3⟩
  | some k =>
    have hk : k ∈ st.keys := hp k hpk
    rw [KAInv, cacheKeys]
    simp only
    rw [mapFst_setA]
    by_cases hmem : k ∈ st.cache.map Prod.fst
    · rw [if_pos hmem]
      exact ⟨h1, h2, h3⟩
    · rw [if_neg hmem]
      refine ⟨h1, ?_, fun x => ?_⟩
      · rw [List.nodup_append]
        exact ⟨h2, List.nodup_singleton k,
          fun a ha hmem2 => hmem ((List.mem_singleton.mp hmem2) ▸ ha)⟩
      · rw [List.mem_append, List.mem_singleton]
        constructor
        · rintro (hx | hx)
          · exact (h3 x).mp hx
          · rwa [hx]
        · intro hx
          by_cases hxk : x = k
          · exact Or.inr hxk
          · exact Or.inl ((h3 x).mpr hx)

lemma nodup_append_singleton {l : List CacheKey} {a : CacheKey}
    (h : l.Nodup) (ha : a ∉ l) : (l ++ [a]).Nodup := by
  rw [List.nodup_append]
  exact ⟨h, List.nodup_singleton a,
    fun x hx hmem => ha ((List.mem_singleton.mp hmem) ▸ hx)⟩

/-- The master lemma for one render cycle: the cache invariant is preserved,
and when a positive `max` is configured the key-set size stays bounded by
it. -/
lemma renderCycle_master (props : KAProps) (st : KAState)
    (cs : Option (List VNode)) (hInv : KAInv st) :
    KAInv ((renderCycle props st cs).2) ∧
      (∀ m, props.max = some m → 0 < m → st.keys.length ≤ m →
        (renderCycle props st cs).2.keys.length ≤ m) := by
  obtain ⟨h1, h2, h3⟩ := hInv
  cases cs with
  | none => exact ⟨⟨h1, h2, h3⟩, fun m hm h0 hl => hl⟩
  | some children =>
    by_cases hlen : children.length > 1
    · have hred : (renderCycle props st (some children)).2 =
          { st with pendingCacheKey := none, current := none } := by
        simp [renderCycle, kaRender, hlen]
      rw [hred]
      exact ⟨⟨h1, h2, h3⟩, fun m hm h0 hl => hl⟩
    · rcases children with _ | ⟨raw, rest⟩
      · exact ⟨⟨h1, h2, h3⟩, fun m hm h0 hl => hl⟩
      · have hrest : rest = [] := by
          cases rest with
          | nil => rfl
          | cons a t =>
            exfalso
            apply hlen
            simp [List.length_cons]
        subst hrest
        by_cases hsc : (!hasFlag raw ShapeFlags.STATEFUL_COMPONENT &&
            !hasFlag raw ShapeFlags.SUSPENSE) = true
        · have hred : (renderCycle props st (some [raw])).2 =
              { st with pendingCacheKey := none, current := none } := by
            simp [renderCycle, kaRender, hsc, cacheSubtree]
          rw [hred]
          exact ⟨⟨h1, h2, h3⟩, fun m hm h0 hl => hl⟩
        · have hsc' : (!hasFlag raw ShapeFlags.STATEFUL_COMPONENT &&
              !hasFlag raw ShapeFlags.SUSPENSE) = false := by
            simpa using hsc
          by_cases hel : notEligible props (getInnerChild raw).nameOf = true
          · have hred : (renderCycle props st (some [raw])).2 =
                { st with pendingCacheKey := none,
                          current := some (getInnerChild raw) } := by
              simp [renderCycle, kaRender, hsc', hel, cacheSubtree]
            rw [hred]
            exact ⟨⟨h1, h2, h3⟩, fun m hm h0 hl => hl⟩
          · have hel' : notEligible props (getInnerChild raw).nameOf =
                false := by
              simpa using hel
            cases hcv : lookupA st.cache (kaKey (getInnerChild raw)) with
            | some cached =>
              have hkc : kaKey (getInnerChild raw) ∈
                  List.map Prod.fst st.cache :=
                lookupA_isSome_iff.mp (by rw [hcv]; rfl)
              have hkk : kaKey (getInnerChild raw) ∈ st.keys :=
                (h3 _).mp hkc
              have hkeys2 : (renderCycle props st (some [raw])).2.keys =
                  addKey (delKey st.keys (kaKey (getInnerChild raw)))
                    (kaKey (getInnerChild raw)) := by
                simp [renderCycle, kaRender, hsc', hel', hcv, cacheSubtree]
              have hck2 : cacheKeys ((renderCycle props st (some [raw])).2) =
                  List.map Prod.fst st.cache := by
                simp [cacheKeys, renderCycle, kaRender, hsc', hel', hcv,
                  cacheSubtree, mapFst_setA, hkc]
              have hknd : kaKey (getInnerChild raw) ∉
                  delKey st.keys (kaKey (getInnerChild raw)) := by
                rw [mem_delKey]
                rintro ⟨-, hne⟩
                exact hne rfl
              constructor
              · refine ⟨?_, ?_, ?_⟩
                · rw [hkeys2]
                  exact nodup_addKey _ (nodup_delKey _ h1)
                · rw [hck2]
                  exact h2
                · intro k
                  rw [hck2, hkeys2, mem_addKey, mem_delKey]
                  rw [show (k ∈ List.map Prod.fst st.cache) =
                      (k ∈ st.keys) from propext (h3 k)]
                  constructor
                  · intro hk
                    by_cases hke : k = kaKey (getInnerChild raw)
                    · exact Or.inr hke
                    · exact Or.inl ⟨hk, hke⟩
                  · rintro (⟨hk, -⟩ | hke)
                    · exact hk
                    · rw [hke]
                      exact hkk
              · intro m hm h0 hl
                rw [hkeys2, addKey_not_mem hknd, List.length_append]
                have hld := length_delKey_of_mem h1 hkk
                simp only [List.length_singleton]
                omega
            | none =>
              have hknc : kaKey (getInnerChild raw) ∉
                  List.map Prod.fst st.cache :=
                lookupA_eq_none_iff.mp hcv
              have hknk : kaKey (getInnerChild raw) ∉ st.keys := by
                intro hk
                exact hknc ((h3 _).mpr hk)
              have haddeq : addKey st.keys (kaKey (getInnerChild raw)) =
                  st.keys ++ [kaKey (getInnerChild raw)] :=
                addKey_not_mem hknk
              cases hmx : props.max with
              | none =>
                have hkeys2 : (renderCycle props st (some [raw])).2.keys =
                    st.keys ++ [kaKey (getInnerChild raw)] := by
                  simp [renderCycle, kaRender, hsc', hel', hcv, hmx,
                    cacheSubtree, haddeq]
                have hck2 : cacheKeys ((renderCycle props st
                    (some [raw])).2) =
                    List.map Prod.fst st.cache ++
                      [kaKey (getInnerChild raw)] := by
                  simp [cacheKeys, renderCycle, kaRender, hsc', hel', hcv,
                    hmx, cacheSubtree, mapFst_setA, hknc]
                constructor
                · refine ⟨?_, ?_, ?_⟩
                  · rw [hkeys2]
                    exact nodup_append_singleton h1 hknk
                  · rw [hck2]
                    exact nodup_append_singleton h2 hknc
                  · intro k
                    rw [hck2, hkeys2]
                    simp only [List.mem_append, List.mem_singleton]
                    exact or_congr (h3 k) Iff.rfl
                · intro m hm h0 hl
                  exact Option.noConfusion hm
              | some m =>
                by_cases hcond : m ≠ 0 ∧ m < st.keys.length + 1
                · have hlen1 : 1 ≤ st.keys.length := by
                    obtain ⟨hm0, hgt⟩ := hcond
                    omega
                  obtain ⟨k0, t, hkeys0⟩ : ∃ k0 t, st.keys = k0 :: t := by
                    cases hk : st.keys with
                    | nil =>
                      rw [hk] at hlen1
                      simp at hlen1
                    | cons a b => exact ⟨a, b, rfl⟩
                  have hk0mem : k0 ∈ st.keys := by
                    rw [hkeys0]
                    exact List.mem_cons_self _ _
                  have hk0ne : k0 ≠ kaKey (getInnerChild raw) := by
                    intro he
                    exact hknk (he ▸ hk0mem)
                  have hkne' : kaKey (getInnerChild raw) ≠ k0 :=
                    Ne.symm hk0ne
                  have hheadP : st.keys.head?.or
                      (some (kaKey (getInnerChild raw))) = some k0 := by
                    rw [hkeys0]
                    rfl
                  have hkeys2 : (renderCycle props st (some [raw])).2.keys =
                      delKey (st.keys ++ [kaKey (getInnerChild raw)])
                        k0 := by
                    simp [renderCycle, kaRender, hsc', hel', hcv, hmx, hcond,
                      hheadP, cacheSubtree, pruneCacheEntry_keys,
                      pruneCacheEntry_pending, pruneCacheEntry_cache, haddeq]
                  have hknfc : kaKey (getInnerChild raw) ∉
                      (List.map Prod.fst st.cache).filter
                        (fun k => k != k0) := by
                    intro hmem
                    exact hknc (List.mem_of_mem_filter hmem)
                  have hck2 : cacheKeys ((renderCycle props st
                      (some [raw])).2) =
                      (List.map Prod.fst st.cache).filter
                          (fun k => k != k0) ++
                        [kaKey (getInnerChild raw)] := by
                    simp [cacheKeys, renderCycle, kaRender, hsc', hel', hcv,
                      hmx, hcond, hheadP, cacheSubtree, pruneCacheEntry_keys,
                      pruneCacheEntry_pending, pruneCacheEntry_cache,
                      mapFst_setA, mapFst_eraseA, hknfc, haddeq]
                  have hdk1 : delKey [kaKey (getInnerChild raw)] k0 =
                      [kaKey (getInnerChild raw)] := by
                    simp [delKey, hkne']
                  have hkeysfin : delKey (st.keys ++
                      [kaKey (getInnerChild raw)]) k0 =
                      delKey st.keys k0 ++ [kaKey (getInnerChild raw)] := by
                    rw [delKey_append, hdk1]
                  have hkndk : kaKey (getInnerChild raw) ∉
                      delKey st.keys k0 := by
                    intro hmem
                    exact hknk (mem_delKey.mp hmem).1
                  constructor
                  · refine ⟨?_, ?_, ?_⟩
                    · rw [hkeys2, hkeysfin]
                      exact nodup_append_singleton (nodup_delKey _ h1) hkndk
                    · rw [hck2]
                      exact nodup_append_singleton
                        (List.Nodup.filter _ h2) hknfc
                    · intro k
                      rw [hck2, hkeys2, hkeysfin]
                      simp only [List.mem_append, List.mem_singleton,
                        List.mem_filter, mem_delKey, bne_iff_ne]
                      exact or_congr (and_congr (h3 k) Iff.rfl) Iff.rfl
                  · intro m2 hm2 h02 hl2
                    rw [hkeys2, hkeysfin, List.length_append]
                    have hld := length_delKey_of_mem h1 hk0mem
                    simp only [List.length_singleton]
                    omega
                · have hkeys2 : (renderCycle props st (some [raw])).2.keys =
                      st.keys ++ [kaKey (getInnerChild raw)] := by
                    simp [renderCycle, kaRender, hsc', hel', hcv, hmx,
                      hcond, cacheSubtree, haddeq]
                  have hck2 : cacheKeys ((renderCycle props st
                      (some [raw])).2) =
                      List.map Prod.fst st.cache ++
                        [kaKey (getInnerChild raw)] := by
                    simp [cacheKeys, renderCycle, kaRender, hsc', hel', hcv,
                      hmx, hcond, cacheSubtree, mapFst_setA, hknc, haddeq]
                  constructor
                  · refine ⟨?_, ?_, ?_⟩
                    · rw [hkeys2]
                      exact nodup_append_singleton h1 hknk
                    · rw [hck2]
                      exact nodup_append_singleton h2 hknc
                    · intro k
                      rw [hck2, hkeys2]
                      simp only [List.mem_append, List.mem_singleton]
                      exact or_congr (h3 k) Iff.rfl
                  · intro m2 hm2 h02 hl2
                    have hmm : m = m2 := Option.some.inj hm2
                    subst hmm
                    rw [hkeys2, List.length_append, List.length_singleton]
                    have hnp : ¬(m ≠ 0 ∧ m < st.keys.length + 1) := hcond
                    omega

lemma kaInv_initial : KAInv KAState.initial := by
  refine ⟨List.nodup_nil, List.nodup_nil, fun k => ?_⟩
  simp [cacheKeys, KAState.initial]

lemma kaInv_kaStep {st : KAState} (props : KAProps) (h : KAInv st)
    (op : KAOp) : KAInv (kaStep props st op) := by
  cases op with
  | render cs => exact (renderCycle_master props st cs h).1
  | prune f => exact kaInv_pruneCache h f

lemma kaInv_foldl (props : KAProps) (l : List KAOp) :
    ∀ st, KAInv st → KAInv (l.foldl (kaStep props) st) := by
  induction l with
  | nil => exact fun st h => h
  | cons op rest ih => exact fun st h => ih _ (kaInv_kaStep props h op)

lemma cache_length_eq_keys_length {st : KAState} (h : KAInv st) :
    st.cache.length = st.keys.length := by
  have hperm : (cacheKeys st).Perm st.keys :=
    (List.perm_ext_iff_of_nodup h.2.1 h.1).mpr h.2.2
  have hlen := hperm.length_eq
  simpa [cacheKeys] using hlen

/-! ## C2 -/

/-- C2 counterexample: immediately after the render closure returns on a
cache miss -- before the paired mounted/updated hook has run -- the new key
is already in `keys` but not yet in `cache`, so the two do not hold the same
key set at that point (refuting "after each render" as a checkpoint of the
claimed invariant). -/
theorem c2_counterexample :
    CacheKey.compKey 0 ∈
      ((kaRender propsMax2 KAState.initial (some [childA])).2).keys ∧
    lookupA ((kaRender propsMax2 KAState.initial (some [childA])).2).cache
      (CacheKey.compKey 0) = none ∧
    ¬(∀ k, k ∈ cacheKeys ((kaRender propsMax2 KAState.initial
          (some [childA])).2) ↔
        k ∈ ((kaRender propsMax2 KAState.initial (some [childA])).2).keys)
    := by
  refine ⟨by decide, by decide, ?_⟩
  intro hall
  have hmem := (hall (CacheKey.compKey 0)).mpr (by decide)
  revert hmem
  decide

/-- C2 amended: at every hook boundary -- after each full render cycle
(render plus its paired mounted/updated hook) and after each prune -- the
ordered key set `keys` and the cache map hold exactly the same keys; between
a cache-miss render and its hook, `keys` temporarily holds the pending key
that `cache` receives only when the hook runs. -/
theorem c2_keys_cache_same_after_cycles (props : KAProps) (ops : List KAOp) :
    ∀ k, k ∈ cacheKeys (kaRun props ops) ↔ k ∈ (kaRun props ops).keys :=
  (kaInv_foldl props ops KAState.initial kaInv_initial).2.2

/-! ## C1 -/

/-- C1: the LRU behaviour of the keep-alive cache.  General part: with a
configured positive `max`, one render cycle keeps both the key set and the
cache no larger than `max`.  Scenario part (`max = 2`, children A, B, C):
inserting C evicts exactly A (the least-recently-promoted key, force-
unmounted), B afterwards is a cache hit (its vnode is marked kept-alive),
A afterwards is a cache miss (no kept-alive marking), and the sizes never
exceed 2 at any step. -/
theorem c1_lru_eviction :
    (∀ (props : KAProps) (st : KAState) (cs : Option (List VNode)) (m : Nat),
      props.max = some m → 0 < m → KAInv st → st.keys.length ≤ m →
      (renderCycle props st cs).2.keys.length ≤ m ∧
        (renderCycle props st cs).2.cache.length ≤ m) ∧
    (kaStC.keys = [CacheKey.compKey 1, CacheKey.compKey 2] ∧
      kaStC.unmountLog = [CacheKey.compKey 0] ∧
      (lookupA kaStC.cache (CacheKey.compKey 1)).isSome = true ∧
      lookupA kaStC.cache (CacheKey.compKey 0) = none ∧
      kaResultKept kaHitB.1 = true ∧
      kaResultKept kaMissA.1 = false ∧
      kaStA.keys.length ≤ 2 ∧ kaStA.cache.length ≤ 2 ∧
      kaStB.keys.length ≤ 2 ∧ kaStB.cache.length ≤ 2 ∧
      kaStC.keys.length ≤ 2 ∧ kaStC.cache.length ≤ 2 ∧
      kaHitB.2.keys.length ≤ 2 ∧ kaHitB.2.cache.length ≤ 2 ∧
      kaMissA.2.keys.length ≤ 2 ∧ kaMissA.2.cache.length ≤ 2) := by
  constructor
  · intro props st cs m hm h0 hInv hl
    obtain ⟨hInv2, hlen2⟩ := renderCycle_master props st cs hInv
    have hk := hlen2 m hm h0 hl
    refine ⟨hk, ?_⟩
    rw [cache_length_eq_keys_length hInv2]
    exact hk
  · decide

/-- Witness for C1's general part at the concrete scenario start. -/
theorem c1_witness :
    (renderCycle propsMax2 KAState.initial (some [childA])).2.keys.length
        ≤ 2 ∧
    (renderCycle propsMax2 KAState.initial (some [childA])).2.cache.length
        ≤ 2 :=
  c1_lru_eviction.1 propsMax2 KAState.initial (some [childA]) 2 rfl
    (by decide) kaInv_initial (by decide)

end Vue
